import Mathlib

/-
Verification of the self-evolution pipeline of the Hohenheim AGI repository
(src/agents/self_evolution.py and src/agents/evolution_agent.py).

The embedding models paths as lists of segments (os.path.join is list
append, a path string "/a/b" is ["", "a", "b"]), the filesystem as an
association list from paths to file contents plus a directory list
(writes shadow by prepending, reads take the first match, matching
overwrite semantics), and every call out to the reasoning provider,
the formatter, the module loader and the linter as an oracle argument,
since those are external collaborators in the specification.
-/

namespace Hohenheim

/-- A filesystem path, one string per segment.  os.path.join of a
directory and a relative path is list append. -/
abbrev Path := List String

/-- The filesystem: files as an association list from path to content
(first match wins, so writing prepends), plus the set of directories,
kept as a list because os.listdir order is observable. -/
structure FS where
  files : List (Path × String)
  dirs : List Path
deriving DecidableEq

/-- Read a file: first entry whose path matches. -/
def fsRead (fs : FS) (p : Path) : Option String :=
  (fs.files.find? (fun e => decide (e.1 = p))).map (fun e => e.2)

/-- Write (create or overwrite) a file. -/
def fsWrite (fs : FS) (p : Path) (c : String) : FS :=
  { fs with files := (p, c) :: fs.files }

/-- os.path.exists: the path is a file or a directory. -/
def pathExistsB (fs : FS) (p : Path) : Bool :=
  (fsRead fs p).isSome || fs.dirs.contains p

theorem fsRead_fsWrite_self (fs : FS) (p : Path) (c : String) :
    fsRead (fsWrite fs p c) p = some c := by
  simp [fsRead, fsWrite]

theorem fsRead_fsWrite_ne (fs : FS) (p q : Path) (c : String) (h : q ≠ p) :
    fsRead (fsWrite fs p c) q = fsRead fs q := by
  have hd : (decide (p = q)) = false := decide_eq_false (fun hh => h hh.symm)
  simp [fsRead, fsWrite, List.find?_cons, hd]

/-- The `.bak` sibling of a file: `f"{file_path}.bak"` appends to the
final segment. -/
def bakPath (p : Path) : Path :=
  p.dropLast ++ [(p.getLast?.getD "") ++ ".bak"]

/-- Segment-level normalization of a path, as os.path.normpath resolves
an absolute path: empty and `.` segments vanish, `..` pops the previous
segment. -/
def pathNormStep (acc : Path) (s : String) : Path :=
  if s = "" ∨ s = "." then acc
  else if s = ".." then acc.dropLast
  else acc ++ [s]

def pathNorm (p : Path) : Path := p.foldl pathNormStep []

/-- The path `p` resolves strictly inside the directory `base`:
after normalization, `base` is a proper prefix of `p`. -/
def resolvesStrictlyInside (base p : Path) : Prop :=
  pathNorm base <+: pathNorm p ∧ pathNorm base ≠ pathNorm p

instance (base p : Path) : Decidable (resolvesStrictlyInside base p) := by
  unfold resolvesStrictlyInside; infer_instance

/-- A segment that survives normalization unchanged. -/
def cleanSeg (s : String) : Bool :=
  !(s = "" || s = "." || s = "..")

theorem pathNorm_append_clean (acc : Path) (p : Path) (h : p.all cleanSeg = true) :
    p.foldl pathNormStep acc = acc ++ p := by
  induction p generalizing acc with
  | nil => simp
  | cons s rest ih =>
    simp only [List.all_cons, Bool.and_eq_true] at h
    obtain ⟨h1, h2⟩ := h
    have hs1 : ¬s = "" := by simp [cleanSeg] at h1; tauto
    have hs2 : ¬s = "." := by simp [cleanSeg] at h1; tauto
    have hs3 : ¬s = ".." := by simp [cleanSeg] at h1; tauto
    simp only [List.foldl_cons, pathNormStep, if_neg (not_or.mpr ⟨hs1, hs2⟩),
      if_neg hs3]
    rw [ih _ h2]
    simp

theorem pathNorm_of_clean (p : Path) (h : p.all cleanSeg = true) :
    pathNorm p = p := by
  simpa [pathNorm] using pathNorm_append_clean [] p h

/-!
Improvement Synthesizer: `_generate_improvements` in
src/agents/self_evolution.py.  The provider response is parsed by regex
into a JSON array of objects; we model a parsed object directly.  The
prompt requests the keys `file`, `issue`, `code_snippet`, `benefits`,
`priority`, while the path-rewriting loop and the Applicator read the
keys `file_path` and `issue_description`; both key families are
therefore carried as optional fields.
-/

/-- One parsed improvement object out of the provider response. -/
structure RawImprovement where
  file : Option Path
  file_path : Option Path
  issue : Option String
  issue_description : Option String
  code_snippet : Option String
  benefits : Option String
  priority : Option String
deriving DecidableEq

/-- The path-rewriting loop body of `_generate_improvements`:
`improvement["file_path"] = os.path.join(self.current_clone_dir,
improvement["file_path"].lstrip("/"))`, applied only when the
`file_path` key is present.  `lstrip("/")` drops leading empty
segments. -/
def rewriteImprovement (cloneDir : Path) (imp : RawImprovement) : RawImprovement :=
  match imp.file_path with
  | some p => { imp with file_path := some (cloneDir ++ p.dropWhile (fun s => s = "")) }
  | none => imp

structure GenImpsResult where
  success : Bool
  message : String
  improvements : List RawImprovement
deriving DecidableEq

/-- `_generate_improvements`: `parseOk` is the oracle for whether a
fenced or bracketed JSON array could be extracted from the provider
text and loaded; `raw` is the loaded array. -/
def generate_improvements (cloneDir : Path) (parseOk : Bool)
    (raw : List RawImprovement) : GenImpsResult :=
  if parseOk then
    { success := true, message := "", improvements := raw.map (rewriteImprovement cloneDir) }
  else
    { success := false, message := "Could not extract improvements from result",
      improvements := [] }

/-!
Change Applicator and Verifier: `_apply_improvement` in
src/agents/self_evolution.py, delegating to
`generate_code_improvement`, `apply_improvement`, `test_improvement`
and `revert_improvement` of src/agents/evolution_agent.py.
-/

/-- Oracles for one improvement: whether the provider produced an
extractable code block, the candidate content after best-effort
formatting, and the Verifier verdict (module import succeeded and
pylint exited zero). -/
structure ImpOracle where
  genOk : Bool
  candidate : String
  testOk : Bool
deriving DecidableEq

structure AIResult where
  success : Bool
  message : String
deriving DecidableEq

/-- `_apply_improvement` on the clone filesystem.  A missing
`file_path` or `issue_description` key raises KeyError, caught by the
outer handler into a failure result.  `generate_code_improvement`
reads the original content; `apply_improvement` writes the `.bak`
backup with the original content and then overwrites the file with the
candidate; on a failed test, `revert_improvement` reads the `.bak` and
writes it back.  (The memory/history recording of the evolution agent
is not modeled; it does not feed back into the pipeline.) -/
def apply_one_improvement (fs : FS) (imp : RawImprovement) (o : ImpOracle) :
    AIResult × FS :=
  match imp.file_path, imp.issue_description with
  | some p, some _ =>
    match fsRead fs p with
    | none => ({ success := false, message := "File not found" }, fs)
    | some orig =>
      if !o.genOk then
        ({ success := false, message := "Failed to generate improvement" }, fs)
      else
        let fs1 := fsWrite fs (bakPath p) orig
        let fs2 := fsWrite fs1 p o.candidate
        if o.testOk then
          ({ success := true, message := "" }, fs2)
        else
          match fsRead fs2 (bakPath p) with
          | none => ({ success := false, message := "Backup file not found" }, fs2)
          | some backup =>
            ({ success := false, message := "Improvement failed testing" },
              fsWrite fs2 p backup)
  | _, _ => ({ success := false, message := "Error applying improvement" }, fs)

/-- Step 3 of `_run_evolution_process`: apply each improvement in turn,
collecting the ones whose application succeeded. -/
def applyLoop (fs : FS) :
    List (RawImprovement × ImpOracle) → List (RawImprovement × AIResult) × FS
  | [] => ([], fs)
  | x :: rest =>
    let r := apply_one_improvement fs x.1 x.2
    let tail := applyLoop r.2 rest
    (if r.1.success then (x.1, r.1) :: tail.1 else tail.1, tail.2)

/-!
Report Builder: `_prepare_evolution_report`.  The counts and benchmark
comparison are carried as numbers; the executive summary is a provider
oracle string and irrelevant to the claims.
-/

/-- `os.path.relpath(p, base)` on segment lists. -/
def commonPrefixLen : Path → Path → Nat
  | a :: as, b :: bs => if a = b then 1 + commonPrefixLen as bs else 0
  | _, _ => 0

def os_relpath (p base : Path) : Path :=
  let k := commonPrefixLen p base
  List.replicate (base.length - k) ".." ++ p.drop k

structure ReportDetail where
  file_path : Path
  issue_description : String
deriving DecidableEq

structure Report where
  details : List ReportDetail
  overall_improvement : ℚ
  recommendation : String
deriving DecidableEq

/-- `_prepare_evolution_report`, restricted to the fields the claims
read: the applied-changes details (file paths made relative to the
clone directory) and the benchmark-derived recommendation. -/
def prepare_evolution_report (cloneDir : Path)
    (applied : List (RawImprovement × AIResult)) (overall : ℚ) : Report :=
  { details := applied.filterMap (fun y =>
      y.1.file_path.map (fun p =>
        { file_path := os_relpath p cloneDir,
          issue_description := (y.1.issue_description.getD "") })),
    overall_improvement := overall,
    recommendation := if overall > 0 then "approve" else "reject" }

/-!
Evolution Orchestrator state: the fields of SelfEvolutionFramework the
claims observe.  Memories are modeled as lists of tagged entries; the
JSON report files written for approval are modeled as a store keyed by
the run timestamp (serialization is the identity).
-/

structure MemEntry where
  key : String
  time : Nat
  info : String
deriving DecidableEq

structure EvoRecord where
  timestamp : Nat
  applied_files : List Path
deriving DecidableEq

structure EvoState where
  is_evolving : Bool
  last_evolution_time : Option Nat
  evolution_history : List EvoRecord
  current_clone_dir : Option Path
  fs : FS
  short_term : List MemEntry
  long_term : List MemEntry
  reports : List (String × Report)
  auto_approve : Bool
deriving DecidableEq

/-- `_finish_evolution`: clears `is_evolving`, records
`last_evolution_time`, and stores an `evolution_finished` record in
short-term memory.  It does not touch `evolution_history`. -/
def finish_evolution (s : EvoState) (now : Nat) (ok : Bool) (message : String) :
    EvoState :=
  { s with is_evolving := false,
           last_evolution_time := some now,
           short_term :=
             { key := "evolution_finished", time := now,
               info := (if ok then "ok: " else "failed: ") ++ message } :: s.short_term }

/-- Names directly under the evolution directory, in listing order
(os.listdir). -/
def listEvolution (fs : FS) : List String :=
  fs.dirs.filterMap (fun d =>
    match d with
    | [a, n] => if a = "evolution" then some n else none
    | _ => none)

/-- `str.startswith(pre)`. -/
def strStartsWith (s pre : String) : Bool :=
  decide (pre.toList <+: s.toList)

/-- The clone-directory search of `_apply_evolution_to_main_codebase`:
the first `clone-` entry of the evolution directory that contains the
given relative path. -/
def findCloneDir (fs : FS) (rel : Path) : Option Path :=
  (listEvolution fs).findSome? (fun n =>
    if strStartsWith n "clone-" && pathExistsB fs (["evolution", n] ++ rel) then
      some ["evolution", n]
    else none)

/-- The promotion copy loop: for each relative path, if the clone holds
the file, back the live file up to its `.bak` sibling (only when the
live file exists) and overwrite it with the clone content.  Returns the
final filesystem and the applied files in order. -/
def promoteLoop (cd : Path) (fs : FS) : List Path → FS × List Path
  | [] => (fs, [])
  | r :: rs =>
    match fsRead fs (cd ++ r) with
    | none => promoteLoop cd fs rs
    | some content =>
      let fs1 := match fsRead fs r with
                 | some old => fsWrite fs (bakPath r) old
                 | none => fs
      let fs2 := fsWrite fs1 r content
      let tail := promoteLoop cd fs2 rs
      (tail.1, r :: tail.2)

def agiCorePath : Path := ["core", "agi_core.py"]

/-- The relative paths listed in a report's applied-changes details. -/
def detailPaths (r : Report) : List Path := r.details.map (fun d => d.file_path)

/-- `_update_version_number`: rewrites `core/agi_core.py` in place,
bumping the patch component of the version string.  The regex rewrite
of the content is abstracted as the `bump` oracle; the claims only need
that this step writes nowhere else. -/
def update_version_number (bump : String → String) (fs : FS) : FS :=
  match fsRead fs agiCorePath with
  | none => fs
  | some c => fsWrite fs agiCorePath (bump c)

structure ApplyMainResult where
  success : Bool
  message : String
  applied_files : List Path
deriving DecidableEq

/-- `_apply_evolution_to_main_codebase`: locate the clone directory
from the first detail, copy each detail file onto the live tree with a
`.bak` of any existing live file, bump the version, append one record
to `evolution_history`, store memories, and finish. -/
def apply_evolution_to_main_codebase (s : EvoState) (now : Nat)
    (bump : String → String) (report : Report) : ApplyMainResult × EvoState :=
  let cdOpt := match report.details with
    | [] => none
    | d :: _ => findCloneDir s.fs d.file_path
  match cdOpt with
  | none =>
    ({ success := false, message := "Could not determine clone directory",
       applied_files := [] }, s)
  | some cd =>
    let pr := promoteLoop cd s.fs (detailPaths report)
    let fs2 := update_version_number bump pr.1
    let record : EvoRecord := { timestamp := now, applied_files := pr.2 }
    let s1 : EvoState :=
      { s with fs := fs2,
               evolution_history := s.evolution_history ++ [record],
               short_term :=
                 { key := "evolution_applied", time := now, info := "" } :: s.short_term,
               long_term :=
                 { key := "System Evolution", time := now, info := "" } :: s.long_term }
    let s2 := finish_evolution s1 now true "Successfully applied evolution"
    ({ success := true, message := "Successfully applied evolution",
       applied_files := pr.2 }, s2)

/-- `approve_evolution`: load the persisted report for the timestamp
and promote it. -/
def approve_evolution (s : EvoState) (now : Nat) (bump : String → String)
    (timestamp : String) : ApplyMainResult × EvoState :=
  match s.reports.lookup timestamp with
  | none =>
    ({ success := false, message := "Evolution report not found",
       applied_files := [] }, s)
  | some report => apply_evolution_to_main_codebase s now bump report

/-!
Codebase Snapshot: `_clone_codebase`, and the entry point
`start_evolution_process`.  The project base directory is the root
path `[]`; the evolution directory is `["evolution"]`.
-/

/-- Substring test, as the Python `in` operator on strings. -/
def strContains (hay needle : String) : Bool :=
  decide (needle.toList <:+: hay.toList)

/-- The walk skips any directory whose path string contains
"evolution", "__pycache__" or ".git". -/
def excludedDir (p : Path) : Bool :=
  let root := String.intercalate "/" p.dropLast
  strContains root "evolution" || strContains root "__pycache__" ||
    strContains root ".git"

/-- The copy allow-list of `_clone_codebase`. -/
def allowedExt (name : String) : Bool :=
  name.endsWith ".py" || name.endsWith ".md" || name.endsWith ".txt" ||
    name.endsWith ".yaml" || name.endsWith ".yml"

/-- Copy every allow-listed file that is not under an excluded
directory into the destination directory. -/
def cloneCopy (fs : FS) (dst : Path) : FS :=
  let toCopy := fs.files.filter (fun e =>
    !excludedDir e.1 &&
      (match e.1.getLast? with
       | some n => allowedExt n
       | none => false))
  { files := toCopy.map (fun e => (dst ++ e.1, e.2)) ++ fs.files,
    dirs := dst :: fs.dirs }

structure CloneResult where
  success : Bool
  message : String
deriving DecidableEq

/-- `_clone_codebase`.  `ioOk` is the oracle for the filesystem calls
raising; on failure nothing is rolled back and the state is returned
as it was. -/
def clone_codebase (s : EvoState) (ioOk : Bool) : CloneResult × EvoState :=
  match s.current_clone_dir with
  | none =>
    ({ success := false, message := "Error cloning codebase" }, s)
  | some dir =>
    if ioOk then
      ({ success := true, message := "Codebase cloned successfully" },
        { s with fs := cloneCopy s.fs dir })
    else
      ({ success := false, message := "Error cloning codebase" }, s)

/-- The dictionary returned by `start_evolution_process`; `status` is
an `Option` because the clone-failure dictionary has no `status`
key. -/
structure StartResult where
  success : Bool
  message : String
  status : Option String
  timestamp : Option String
  clone_dir : Option Path
deriving DecidableEq

/-- `start_evolution_process`.  If a run is active, return the
`already_running` dictionary with no side effect.  Otherwise set
`is_evolving`, record the clone directory for this timestamp, clone,
and hand the pipeline to a background thread (`threadOk` is the oracle
for the try-block raising at thread start).  Both failure paths clear
`is_evolving` before returning. -/
def start_evolution_process (s : EvoState) (timestamp : String)
    (cloneIoOk : Bool) (threadOk : Bool) : StartResult × EvoState :=
  if s.is_evolving then
    ({ success := false, message := "Evolution process is already running",
       status := some "already_running", timestamp := none, clone_dir := none }, s)
  else
    let cloneDir : Path := ["evolution", "clone-" ++ timestamp]
    let s1 : EvoState := { s with is_evolving := true, current_clone_dir := some cloneDir }
    let cr := clone_codebase s1 cloneIoOk
    if !cr.1.success then
      ({ success := false, message := cr.1.message, status := none,
         timestamp := none, clone_dir := none },
        { cr.2 with is_evolving := false })
    else if !threadOk then
      ({ success := false, message := "Error starting evolution process",
         status := some "error", timestamp := none, clone_dir := none },
        { cr.2 with is_evolving := false })
    else
      ({ success := true, message := "Self-evolution process started",
         status := some "started", timestamp := some timestamp,
         clone_dir := some cloneDir }, cr.2)

/-!
The background pipeline `_run_evolution_process`: analyze the clone,
synthesize improvements, apply them, benchmark, build the report, then
either persist the report and wait for approval or auto-apply.
-/

/-- Everything the pipeline obtains from its collaborators during one
run: the run timestamp, the clock value used by the finish
bookkeeping, the per-stage outcomes, the parsed improvements with
their per-improvement oracles, the benchmark aggregate, and the
version-bump content rewrite. -/
structure RunInput where
  timestamp : String
  now : Nat
  analysisOk : Bool
  parseOk : Bool
  raw : List (RawImprovement × ImpOracle)
  benchmarkOk : Bool
  overall : ℚ
  bump : String → String

/-- The synthesized improvements after the path rewrite of
`_generate_improvements`, paired with their oracles. -/
def rewrittenImps (s : EvoState) (inp : RunInput) :
    List (RawImprovement × ImpOracle) :=
  inp.raw.map (fun x => (rewriteImprovement (s.current_clone_dir.getD []) x.1, x.2))

/-- The orchestrator state after the apply loop has mutated the clone
filesystem. -/
def runPromoteState (s : EvoState) (inp : RunInput) : EvoState :=
  { s with fs := (applyLoop s.fs (rewrittenImps s inp)).2 }

/-- The report assembled for this run. -/
def runReport (s : EvoState) (inp : RunInput) : Report :=
  prepare_evolution_report (s.current_clone_dir.getD [])
    (applyLoop s.fs (rewrittenImps s inp)).1 inp.overall

/-- `_run_evolution_process`.  Every early exit goes through
`_finish_evolution`; the awaiting-approval hand-off instead persists
the report, stores an `evolution_report` memory entry and clears
`is_evolving` directly.  On auto-approve, the promotion itself calls
`_finish_evolution` and the caller then calls it again on the result
(mirroring the double bookkeeping of the source). -/
def run_evolution_process (s : EvoState) (inp : RunInput) : EvoState :=
  if !inp.analysisOk then
    finish_evolution s inp.now false "Codebase analysis failed"
  else if !inp.parseOk then
    finish_evolution s inp.now false "No valid improvements generated"
  else
    if (rewrittenImps s inp).isEmpty then
      finish_evolution s inp.now false "No valid improvements generated"
    else
      let s1 := runPromoteState s inp
      if (applyLoop s.fs (rewrittenImps s inp)).1.isEmpty then
        finish_evolution s1 inp.now false "No improvements could be applied"
      else if !inp.benchmarkOk then
        finish_evolution s1 inp.now false "Benchmarking failed"
      else if !s.auto_approve then
        { s1 with
            reports := (inp.timestamp, runReport s inp) :: s1.reports,
            short_term :=
              { key := "evolution_report", time := inp.now, info := "" } :: s1.short_term,
            is_evolving := false }
      else
        let pr := apply_evolution_to_main_codebase (runPromoteState s inp) inp.now
          inp.bump (runReport s inp)
        if pr.1.success then
          finish_evolution pr.2 inp.now true
            "Evolution successfully applied to main codebase"
        else
          finish_evolution pr.2 inp.now false "Failed to apply evolution"

/-- The terminal disposition of one run. -/
inductive RunOutcome where
  | failed
  | awaiting
  | applied (promoted : Bool)
deriving DecidableEq

/-- The disposition `_run_evolution_process` reaches, recomputed from
the same stage conditions the pipeline branches on. -/
def runOutcome (s : EvoState) (inp : RunInput) : RunOutcome :=
  if !inp.analysisOk then .failed
  else if !inp.parseOk then .failed
  else if (rewrittenImps s inp).isEmpty then .failed
  else if (applyLoop s.fs (rewrittenImps s inp)).1.isEmpty then .failed
  else if !inp.benchmarkOk then .failed
  else if !s.auto_approve then .awaiting
  else
    .applied (apply_evolution_to_main_codebase (runPromoteState s inp) inp.now
      inp.bump (runReport s inp)).1.success

/-!
Static Analyzer: `analyze_codebase`, `_analyze_file`,
`_calculate_complexity` and `_calculate_file_complexity` of
src/agents/evolution_agent.py.  A Python AST node is modeled by the
features the analyzer reads: its kind (with boolean-operator arity and
exception-handler count where relevant) and its children.  `ast.walk`
yields the node itself and every descendant.
-/

inductive PyKind where
  | module
  | ifStmt
  | whileStmt
  | forStmt
  | comprehension
  | boolOp (arity : Nat)
  | tryStmt (handlers : Nat)
  | functionDef (name : String) (lineno : Nat)
  | classDef (name : String)
  | other
deriving DecidableEq

inductive PyNode where
  | mk (kind : PyKind) (children : List PyNode)

def PyNode.kind : PyNode → PyKind
  | .mk k _ => k

def PyNode.children : PyNode → List PyNode
  | .mk _ cs => cs

mutual
/-- `ast.walk(n)`: `n` together with all of its descendants. -/
def PyNode.walk : PyNode → List PyNode
  | .mk k cs => .mk k cs :: walkForest cs

def walkForest : List PyNode → List PyNode
  | [] => []
  | n :: ns => n.walk ++ walkForest ns
end

def isIf (n : PyNode) : Bool :=
  match n.kind with | .ifStmt => true | _ => false

def isWhile (n : PyNode) : Bool :=
  match n.kind with | .whileStmt => true | _ => false

def isFor (n : PyNode) : Bool :=
  match n.kind with | .forStmt => true | _ => false

def isComp (n : PyNode) : Bool :=
  match n.kind with | .comprehension => true | _ => false

def isFunctionDef (n : PyNode) : Bool :=
  match n.kind with | .functionDef _ _ => true | _ => false

def isClassDef (n : PyNode) : Bool :=
  match n.kind with | .classDef _ => true | _ => false

def boolOpArity (n : PyNode) : Option Nat :=
  match n.kind with | .boolOp a => some a | _ => none

def tryHandlers (n : PyNode) : Option Nat :=
  match n.kind with | .tryStmt h => some h | _ => none

/-- The per-node contribution of the complexity loop: branch, loop and
comprehension nodes add 1, a boolean operator adds its arity minus
one, a try statement adds its handler count. -/
def complexityContrib (n : PyNode) : Nat :=
  match n.kind with
  | .ifStmt | .whileStmt | .forStmt | .comprehension => 1
  | .boolOp a => a - 1
  | .tryStmt h => h
  | _ => 0

/-- `_calculate_complexity`: 1 plus the contributions over
`ast.walk(node)`. -/
def calculate_complexity (n : PyNode) : Nat :=
  1 + (n.walk.map complexityContrib).sum

/-- `_calculate_file_complexity`: total function complexity divided by
`max(function_count, 1)`. -/
def calculate_file_complexity (tree : PyNode) : ℚ :=
  let funcs := tree.walk.filter isFunctionDef
  ((funcs.map (fun f => (calculate_complexity f : ℚ))).sum) /
    ((max funcs.length 1 : Nat) : ℚ)

/-- One entry of `potential_improvements`; `kind` is the `type`
field. -/
structure Issue where
  kind : String
  location : String
  description : String
  priority : ℚ
deriving DecidableEq

/-- The descending priority order the analyzer sorts by. -/
def priorityGE (a b : Issue) : Prop := b.priority ≤ a.priority

instance : DecidableRel priorityGE := fun a b =>
  inferInstanceAs (Decidable (b.priority ≤ a.priority))

instance : IsTotal Issue priorityGE :=
  ⟨fun a b => (le_total b.priority a.priority).imp id id⟩

instance : IsTrans Issue priorityGE :=
  ⟨fun _ _ _ h1 h2 => le_trans h2 h1⟩

/-- A source file as the analyzer sees it: the content split on
newlines, whether `ast.parse` succeeded, and the parsed tree. -/
structure SrcFile where
  lines : List String
  parseOk : Bool
  tree : PyNode

/-- The high-complexity issues of `_analyze_file`, one per
walked function whose complexity exceeds 10, priority
complexity divided by 10. -/
def highComplexityIssues (path : String) (tree : PyNode) : List Issue :=
  tree.walk.filterMap (fun n =>
    match n.kind with
    | .functionDef name lineno =>
      let c := calculate_complexity n
      if c > 10 then
        some { kind := "high_complexity",
               location := path ++ ":" ++ toString lineno,
               description := "Function " ++ name ++ " has high complexity (" ++
                 toString c ++ ")",
               priority := (c : ℚ) / 10 }
      else none
    | _ => none)

/-- The long-line issues: lines longer than 100 characters, priority
0.5. -/
def longLineIssues (path : String) (lines : List String) : List Issue :=
  lines.enum.filterMap (fun e =>
    if e.2.length > 100 then
      some { kind := "long_line",
             location := path ++ ":" ++ toString (e.1 + 1),
             description := "Line " ++ toString (e.1 + 1) ++ " is too long (" ++
               toString e.2.length ++ " characters)",
             priority := (1 : ℚ) / 2 }
    else none)

/-- The regex `#\s*TODO` with re.IGNORECASE: a `#` followed by
optional whitespace and the four letters of TODO in any case. -/
def todoAfterHash (cs : List Char) : Bool :=
  match cs.dropWhile (fun c =>
    c = ' ' || c = '\t' || c = '\r' || c = '\x0b' || c = '\x0c') with
  | t :: o :: d :: o2 :: _ =>
    t.toLower = 't' && o.toLower = 'o' && d.toLower = 'd' && o2.toLower = 'o'
  | _ => false

def hasTodoSearch : List Char → Bool
  | [] => false
  | '#' :: rest => todoAfterHash rest || hasTodoSearch rest
  | _ :: rest => hasTodoSearch rest

def hasTodoComment (s : String) : Bool := hasTodoSearch s.toList

/-- The TODO-comment issues: lines matching the TODO pattern, priority
0.3. -/
def todoIssues (path : String) (lines : List String) : List Issue :=
  lines.enum.filterMap (fun e =>
    if hasTodoComment e.2 then
      some { kind := "todo",
             location := path ++ ":" ++ toString (e.1 + 1),
             description := "TODO comment found: " ++ e.2.trim,
             priority := (3 : ℚ) / 10 }
    else none)

structure FileMetrics where
  lines : Nat
  functions : Nat
  classes : Nat
  complexity : ℚ
  potential_improvements : List Issue

/-- `_analyze_file`.  The line count is recorded before parsing; a
parse error abandons the rest of the analysis and returns the metrics
collected so far. -/
def analyze_file (path : String) (f : SrcFile) : FileMetrics :=
  if !f.parseOk then
    { lines := f.lines.length, functions := 0, classes := 0, complexity := 0,
      potential_improvements := [] }
  else
    { lines := f.lines.length,
      functions := (f.tree.walk.filter isFunctionDef).length,
      classes := (f.tree.walk.filter isClassDef).length,
      complexity := calculate_file_complexity f.tree,
      potential_improvements :=
        highComplexityIssues path f.tree ++ longLineIssues path f.lines ++
          todoIssues path f.lines }

structure Analysis where
  total_files : Nat
  total_lines : Nat
  total_functions : Nat
  total_classes : Nat
  complexity_scores : List (String × ℚ)
  potential_improvements : List Issue
  improvement_suggestions : String

/-- `analyze_codebase`: aggregate the per-file metrics, concatenate the
per-file issues and sort them by priority descending (Python
`list.sort` with `reverse=True`), then attach the provider-generated
suggestion text. -/
def analyze_codebase (files : List (String × SrcFile)) (suggestions : String) :
    Analysis :=
  let ms := files.map (fun e => (e.1, analyze_file e.1 e.2))
  { total_files := files.length,
    total_lines := (ms.map (fun m => m.2.lines)).sum,
    total_functions := (ms.map (fun m => m.2.functions)).sum,
    total_classes := (ms.map (fun m => m.2.classes)).sum,
    complexity_scores := ms.map (fun m => (m.1, m.2.complexity)),
    potential_improvements :=
      List.insertionSort priorityGE
        ((ms.map (fun m => m.2.potential_improvements)).flatten),
    improvement_suggestions := suggestions }


/-!
Configuration: `update_config` of src/agents/self_evolution.py.  The
configuration dictionary maps string keys to values; `update_config`
assigns only keys that already exist, converting a string
`trigger_type` through the `EvolutionTrigger` enum and silently
skipping an unrecognized trigger name.  (The monitor restart and the
Phi initialization it may additionally perform touch threads and
models, not the configuration.)
-/

inductive EvolutionTrigger where
  | daily
  | interval
  | manual
  | performance_threshold
deriving DecidableEq

/-- `hasattr(EvolutionTrigger, value.upper())` plus `getattr`. -/
def triggerOfString (s : String) : Option EvolutionTrigger :=
  if s.toUpper = "DAILY" then some .daily
  else if s.toUpper = "INTERVAL" then some .interval
  else if s.toUpper = "MANUAL" then some .manual
  else if s.toUpper = "PERFORMANCE_THRESHOLD" then some .performance_threshold
  else none

inductive CVal where
  | str (s : String)
  | num (q : ℚ)
  | boolean (b : Bool)
  | trig (t : EvolutionTrigger)
deriving DecidableEq

abbrev Config := List (String × CVal)

/-- Assign an existing key in place. -/
def setKey (cfg : Config) (k : String) (v : CVal) : Config :=
  cfg.map (fun e => if e.1 = k then (k, v) else e)

/-- The update loop of `update_config`. -/
def updateConfigStep (cfg : Config) (kv : String × CVal) : Config :=
  if (cfg.lookup kv.1).isSome then
    if kv.1 = "trigger_type" then
      match kv.2 with
      | .str s =>
        match triggerOfString s with
        | some t => setKey cfg kv.1 (.trig t)
        | none => cfg
      | v => setKey cfg kv.1 v
    else setKey cfg kv.1 kv.2
  else cfg

def update_config (cfg : Config) (patch : List (String × CVal)) : Config :=
  patch.foldl updateConfigStep cfg

/-!
Concrete sample data used by witnesses and counterexamples.
-/

def sampleFS : FS :=
  { files := [(["main.py"], "print(1)\n"), (["core", "agi_core.py"], "version")],
    dirs := [["core"], ["evolution"]] }

/-- An orchestrator state with a run in progress. -/
def busyState : EvoState :=
  { is_evolving := true, last_evolution_time := none, evolution_history := [],
    current_clone_dir := some ["evolution", "clone-20250101-000000"],
    fs := sampleFS, short_term := [], long_term := [], reports := [],
    auto_approve := false }

/-- An idle orchestrator state. -/
def idleState : EvoState :=
  { busyState with is_evolving := false, current_clone_dir := none }

/-!
C1.  `start_evolution_process` while `is_evolving` is true.
-/

/-- C1: calling `start_evolution_process` while `is_evolving` is true
returns the dictionary with `success = false` and
`status = "already_running"`, and the whole orchestrator state —
filesystem (so no new clone directory), `current_clone_dir`,
`evolution_history`, `last_evolution_time` and `is_evolving` — is
returned unchanged. -/
theorem start_while_evolving_is_noop (s : EvoState) (ts : String)
    (cloneIoOk threadOk : Bool) (h : s.is_evolving = true) :
    (start_evolution_process s ts cloneIoOk threadOk).1.success = false ∧
    (start_evolution_process s ts cloneIoOk threadOk).1.status = some "already_running" ∧
    (start_evolution_process s ts cloneIoOk threadOk).2 = s := by
  simp [start_evolution_process, h]

/-- C1 witness: the already-running state is left untouched at a
concrete input. -/
theorem start_while_evolving_is_noop_witness :
    busyState.is_evolving = true ∧
    (start_evolution_process busyState "20250102-000000" true true).1.success = false ∧
    (start_evolution_process busyState "20250102-000000" true true).2 = busyState :=
  ⟨rfl,
    (start_while_evolving_is_noop busyState "20250102-000000" true true rfl).1,
    (start_while_evolving_is_noop busyState "20250102-000000" true true rfl).2.2⟩

/-!
C9.  A failed start never leaves `is_evolving` set.
-/

/-- C9: when `start_evolution_process` is called while idle and returns
`success = false` (the clone failed or starting the run raised), the
returned state has `is_evolving = false`. -/
theorem failed_start_clears_is_evolving (s : EvoState) (ts : String)
    (cloneIoOk threadOk : Bool) (h1 : s.is_evolving = false)
    (h2 : (start_evolution_process s ts cloneIoOk threadOk).1.success = false) :
    (start_evolution_process s ts cloneIoOk threadOk).2.is_evolving = false := by
  cases cloneIoOk <;> cases threadOk <;>
    simp_all [start_evolution_process, clone_codebase]

/-- C9 witness: a clone failure at a concrete idle state returns with
`is_evolving = false`. -/
theorem failed_start_clears_is_evolving_witness :
    idleState.is_evolving = false ∧
    (start_evolution_process idleState "20250102-000000" false true).1.success = false ∧
    (start_evolution_process idleState "20250102-000000" false true).2.is_evolving = false :=
  ⟨rfl, rfl,
    failed_start_clears_is_evolving idleState "20250102-000000" false true rfl rfl⟩

/-!
C8.  File-level complexity.
-/

/-- C8: `_calculate_file_complexity` equals 0 for a file with no
functions and the mean of the function complexities otherwise, and its
divisor `max(function_count, 1)` is always positive, so the division
is never by zero. -/
theorem file_complexity_mean_or_zero (tree : PyNode) :
    calculate_file_complexity tree =
      (if (tree.walk.filter isFunctionDef).length = 0 then 0
       else ((tree.walk.filter isFunctionDef).map
               (fun f => (calculate_complexity f : ℚ))).sum /
              ((tree.walk.filter isFunctionDef).length : ℚ)) ∧
    0 < max (tree.walk.filter isFunctionDef).length 1 := by
  constructor
  · by_cases h : (tree.walk.filter isFunctionDef).length = 0
    · have hnil : tree.walk.filter isFunctionDef = [] :=
        List.length_eq_zero.mp h
      simp [calculate_file_complexity, h, hnil]
    · have hl : 1 ≤ (tree.walk.filter isFunctionDef).length :=
        Nat.one_le_iff_ne_zero.mpr h
      simp only [calculate_file_complexity, if_neg h]
      rw [Nat.max_eq_left hl]
  · exact lt_of_lt_of_le Nat.one_pos (le_max_right _ _)

/-!
C10.  `update_config` preserves the key set.
-/

theorem setKey_keys (cfg : Config) (k : String) (v : CVal) :
    (setKey cfg k v).map Prod.fst = cfg.map Prod.fst := by
  induction cfg with
  | nil => rfl
  | cons e rest ih =>
    by_cases h : e.1 = k <;> simp [setKey, h] at ih ⊢ <;> simpa [setKey] using ih

/-- C10: `update_config` assigns only keys already present, so the
key set (here, the key list) of the configuration after the update is
exactly the key list before it, for every patch. -/
theorem update_config_preserves_keys (cfg : Config) (patch : List (String × CVal)) :
    (update_config cfg patch).map Prod.fst = cfg.map Prod.fst := by
  induction patch generalizing cfg with
  | nil => rfl
  | cons kv rest ih =>
    have hstep : (updateConfigStep cfg kv).map Prod.fst = cfg.map Prod.fst := by
      unfold updateConfigStep
      by_cases h : (cfg.lookup kv.1).isSome
      · simp only [h, if_true]
        by_cases ht : kv.1 = "trigger_type"
        · simp only [ht, if_true]
          cases kv.2 with
          | str s =>
            cases hts : triggerOfString s with
            | none => simp [hts]
            | some t => simp [hts, setKey_keys]
          | num q => simp [setKey_keys]
          | boolean b => simp [setKey_keys]
          | trig t => simp [setKey_keys]
        · simp [ht, setKey_keys]
      · simp [h]
    calc (update_config cfg (kv :: rest)).map Prod.fst
        = (update_config (updateConfigStep cfg kv) rest).map Prod.fst := rfl
      _ = (updateConfigStep cfg kv).map Prod.fst := ih _
      _ = cfg.map Prod.fst := hstep

/-!
Analyzer lemmas shared by the complexity claims.
-/

theorem map_contrib_sum (l : List PyNode) :
    (l.map complexityContrib).sum =
      (l.filter isIf).length + (l.filter isWhile).length + (l.filter isFor).length +
        (l.filter isComp).length +
        ((l.filterMap boolOpArity).map (fun a => a - 1)).sum +
        (l.filterMap tryHandlers).sum := by
  induction l with
  | nil => simp
  | cons n rest ih =>
    obtain ⟨k, cs⟩ := n
    cases k <;>
      simp [complexityContrib, isIf, isWhile, isFor, isComp, boolOpArity,
        tryHandlers, PyNode.kind, List.filter_cons, List.filterMap_cons, ih] <;>
      omega

theorem mem_longLineIssues_kind (path : String) (lines : List String) (i : Issue)
    (h : i ∈ longLineIssues path lines) : i.kind = "long_line" ∧ i.priority = 1 / 2 := by
  simp only [longLineIssues, List.mem_filterMap] at h
  obtain ⟨e, _, he⟩ := h
  by_cases hl : e.2.length > 100
  · rw [if_pos hl] at he
    cases he
    exact ⟨rfl, rfl⟩
  · rw [if_neg hl] at he
    cases he

theorem mem_todoIssues_kind (path : String) (lines : List String) (i : Issue)
    (h : i ∈ todoIssues path lines) : i.kind = "todo" ∧ i.priority = 3 / 10 := by
  simp only [todoIssues, List.mem_filterMap] at h
  obtain ⟨e, _, he⟩ := h
  by_cases hl : hasTodoComment e.2
  · rw [if_pos hl] at he
    cases he
    exact ⟨rfl, rfl⟩
  · rw [if_neg hl] at he
    cases he

theorem mem_highComplexityIssues (path : String) (tree : PyNode) (i : Issue)
    (h : i ∈ highComplexityIssues path tree) :
    i.kind = "high_complexity" ∧
      ∃ n ∈ tree.walk, isFunctionDef n = true ∧ 10 < calculate_complexity n ∧
        i.priority = (calculate_complexity n : ℚ) / 10 := by
  simp only [highComplexityIssues, List.mem_filterMap] at h
  obtain ⟨n, hn, he⟩ := h
  obtain ⟨k, cs⟩ := n
  cases k with
  | functionDef name lineno =>
    simp only [PyNode.kind] at he
    by_cases hc : calculate_complexity (.mk (.functionDef name lineno) cs) > 10
    · rw [if_pos hc] at he
      cases he
      exact ⟨rfl, ⟨.mk (.functionDef name lineno) cs, hn, rfl, hc, rfl⟩⟩
    · rw [if_neg hc] at he
      cases he
  | module => simp [PyNode.kind] at he
  | ifStmt => simp [PyNode.kind] at he
  | whileStmt => simp [PyNode.kind] at he
  | forStmt => simp [PyNode.kind] at he
  | comprehension => simp [PyNode.kind] at he
  | boolOp a => simp [PyNode.kind] at he
  | tryStmt hh => simp [PyNode.kind] at he
  | classDef name => simp [PyNode.kind] at he
  | other => simp [PyNode.kind] at he

/-!
C7.  Complexity of a function with three ifs and one two-way or.
-/

/-- C7: a function whose walked body holds exactly three if statements
and one boolean operator of arity two, and no loop, comprehension or
exception handler, has cyclomatic complexity 1 + 3 + 1 = 5, and since
5 does not exceed 10 the analyzer emits no high_complexity issue for a
file whose only function it is. -/
theorem complexity_three_ifs_one_or (f : PyNode)
    (h1 : (f.walk.filter isIf).length = 3)
    (h2 : f.walk.filterMap boolOpArity = [2])
    (h3 : (f.walk.filter isWhile).length = 0)
    (h4 : (f.walk.filter isFor).length = 0)
    (h5 : (f.walk.filter isComp).length = 0)
    (h6 : f.walk.filterMap tryHandlers = []) :
    calculate_complexity f = 5 ∧
    ∀ (path : String) (file : SrcFile), file.parseOk = true →
      file.tree.walk.filter isFunctionDef = [f] →
      (analyze_file path file).potential_improvements.filter
        (fun i => i.kind = "high_complexity") = [] := by
  have hc : calculate_complexity f = 5 := by
    rw [calculate_complexity, map_contrib_sum, h1, h2, h3, h4, h5, h6]
    norm_num
  refine ⟨hc, ?_⟩
  intro path file hparse hfuncs
  have hhigh : highComplexityIssues path file.tree = [] := by
    rw [highComplexityIssues, List.filterMap_eq_nil_iff]
    intro n hn
    obtain ⟨k, cs⟩ := n
    cases k with
    | functionDef name lineno =>
      have hmem : PyNode.mk (.functionDef name lineno) cs ∈
          file.tree.walk.filter isFunctionDef :=
        List.mem_filter.mpr ⟨hn, rfl⟩
      rw [hfuncs, List.mem_singleton] at hmem
      have : calculate_complexity (PyNode.mk (.functionDef name lineno) cs) = 5 := by
        rw [hmem, hc]
      simp [PyNode.kind, this]
    | module => simp [PyNode.kind]
    | ifStmt => simp [PyNode.kind]
    | whileStmt => simp [PyNode.kind]
    | forStmt => simp [PyNode.kind]
    | comprehension => simp [PyNode.kind]
    | boolOp a => simp [PyNode.kind]
    | tryStmt hh => simp [PyNode.kind]
    | classDef name => simp [PyNode.kind]
    | other => simp [PyNode.kind]
  have hlong : (longLineIssues path file.lines).filter
      (fun i => i.kind = "high_complexity") = [] := by
    rw [List.filter_eq_nil_iff]
    intro i hi
    have := (mem_longLineIssues_kind path file.lines i hi).1
    simp [this]
  have htodo : (todoIssues path file.lines).filter
      (fun i => i.kind = "high_complexity") = [] := by
    rw [List.filter_eq_nil_iff]
    intro i hi
    have := (mem_todoIssues_kind path file.lines i hi).1
    simp [this]
  simp [analyze_file, hparse, List.filter_append, hhigh, hlong, htodo]

/-- The concrete C7 scenario: one function with three ifs, one of
which guards a two-way or. -/
def sampleFunc : PyNode :=
  .mk (.functionDef "check" 1)
    [.mk .ifStmt [.mk .other []],
     .mk .ifStmt [],
     .mk .ifStmt [.mk (.boolOp 2) []]]

def sampleTree : PyNode := .mk .module [sampleFunc]

/-- C7 witness: the concrete scenario evaluates to complexity 5 and no
high_complexity issue. -/
theorem complexity_three_ifs_one_or_witness :
    (sampleFunc.walk.filter isIf).length = 3 ∧
    sampleFunc.walk.filterMap boolOpArity = [2] ∧
    calculate_complexity sampleFunc = 5 ∧
    (analyze_file "single.py"
        { lines := ["def check(a, b):"], parseOk := true, tree := sampleTree }
      ).potential_improvements.filter (fun i => i.kind = "high_complexity") = [] := by
  refine ⟨by decide, by decide, ?_, ?_⟩
  · exact (complexity_three_ifs_one_or sampleFunc (by decide) (by decide)
      (by decide) (by decide) (by decide) (by decide)).1
  · exact (complexity_three_ifs_one_or sampleFunc (by decide) (by decide)
      (by decide) (by decide) (by decide) (by decide)).2
      "single.py" _ rfl rfl

/-!
C6 support: every issue a single file contributes is in range.
-/

theorem issue_range_of_mem_file (path : String) (f : SrcFile) (i : Issue)
    (h : i ∈ (analyze_file path f).potential_improvements) :
    (i.kind = "long_line" → i.priority = 1 / 2) ∧
    (i.kind = "todo" → i.priority = 3 / 10) ∧
    (i.kind = "high_complexity" →
      (∃ c : Nat, 10 < c ∧ i.priority = (c : ℚ) / 10) ∧ 1 < i.priority) := by
  by_cases hp : f.parseOk
  case neg =>
    simp [analyze_file, hp] at h
  case pos =>
    rw [analyze_file, if_neg (by simp [hp])] at h
    simp only [List.mem_append] at h
    rcases h with (h | h) | h
    · obtain ⟨hk, n, _, _, hc, hpr⟩ := mem_highComplexityIssues path f.tree i h
      refine ⟨?_, ?_, ?_⟩
      · intro hkk; rw [hk] at hkk; exact absurd hkk (by decide)
      · intro hkk; rw [hk] at hkk; exact absurd hkk (by decide)
      · intro _
        refine ⟨⟨calculate_complexity n, hc, hpr⟩, ?_⟩
        rw [hpr]
        rw [one_lt_div (by norm_num : (0 : ℚ) < 10)]
        exact_mod_cast hc
    · obtain ⟨hk, hpr⟩ := mem_longLineIssues_kind path f.lines i h
      refine ⟨fun _ => hpr, ?_, ?_⟩
      · intro hkk; rw [hk] at hkk; exact absurd hkk (by decide)
      · intro hkk; rw [hk] at hkk; exact absurd hkk (by decide)
    · obtain ⟨hk, hpr⟩ := mem_todoIssues_kind path f.lines i h
      refine ⟨?_, fun _ => hpr, ?_⟩
      · intro hkk; rw [hk] at hkk; exact absurd hkk (by decide)
      · intro hkk; rw [hk] at hkk; exact absurd hkk (by decide)

/-!
C6.  The analysis issue list is sorted descending and priorities are
in the documented ranges.
-/

/-- C6: for every codebase, `analyze_codebase` returns its
`potential_improvements` sorted by priority in descending order, and
every issue is in the documented range: a high_complexity issue has
priority complexity/10 for a complexity above 10 (hence greater than
1), a long_line issue has priority exactly 0.5, and a todo issue has
priority exactly 0.3. -/
theorem analysis_sorted_and_priorities_ranged
    (files : List (String × SrcFile)) (suggestions : String) :
    List.Sorted priorityGE (analyze_codebase files suggestions).potential_improvements ∧
    ∀ i ∈ (analyze_codebase files suggestions).potential_improvements,
      (i.kind = "long_line" → i.priority = 1 / 2) ∧
      (i.kind = "todo" → i.priority = 3 / 10) ∧
      (i.kind = "high_complexity" →
        (∃ c : Nat, 10 < c ∧ i.priority = (c : ℚ) / 10) ∧ 1 < i.priority) := by
  constructor
  · exact List.sorted_insertionSort priorityGE _
  · intro i hi
    rw [analyze_codebase] at hi
    simp only [List.mem_insertionSort, List.mem_flatten, List.mem_map] at hi
    obtain ⟨l, ⟨m, ⟨e, _, he⟩, hl⟩, hil⟩ := hi
    subst hl
    rw [← he] at hil
    exact issue_range_of_mem_file e.1 e.2 i hil

def sampleTodoFiles : List (String × SrcFile) :=
  [("m.py", { lines := ["# TODO fix"], parseOk := true, tree := .mk .module [] })]

def sampleTodoIssue : Issue :=
  { kind := "todo", location := "m.py:1",
    description := "TODO comment found: " ++ ("# TODO fix").trim, priority := 3 / 10 }

theorem sampleTodo_output :
    (analyze_codebase sampleTodoFiles "").potential_improvements = [sampleTodoIssue] :=
  rfl

/-- C6 witness: at a concrete one-file codebase with one TODO line,
the output is sorted and the emitted todo issue is in range. -/
theorem analysis_sorted_and_priorities_ranged_witness :
    List.Sorted priorityGE
      (analyze_codebase sampleTodoFiles "").potential_improvements ∧
    sampleTodoIssue ∈ (analyze_codebase sampleTodoFiles "").potential_improvements ∧
    (sampleTodoIssue.kind = "todo" → sampleTodoIssue.priority = 3 / 10) :=
  ⟨(analysis_sorted_and_priorities_ranged sampleTodoFiles "").1,
    sampleTodo_output ▸ List.mem_singleton_self sampleTodoIssue,
    ((analysis_sorted_and_priorities_ranged sampleTodoFiles "").2
      sampleTodoIssue (sampleTodo_output ▸ List.mem_singleton_self sampleTodoIssue)).2.1⟩
/-!
C3.  Path rewriting in the Synthesizer.
-/

def escCloneDir : Path := ["evolution", "clone-20250101-000000"]

/-- A parsed improvement shaped exactly as the synthesis prompt
requests: it carries a `file` key and no `file_path` key. -/
def promptShapedImp : RawImprovement :=
  { file := some ["core", "agi_core.py"], file_path := none, issue := some "slow",
    issue_description := none, code_snippet := some "pass", benefits := some "speed",
    priority := some "high" }

/-- A parsed improvement whose `file_path` climbs out of the clone with
`..` segments; `lstrip("/")` does not touch it. -/
def escapingImp : RawImprovement :=
  { file := none, file_path := some ["..", "..", "core", "agi_core.py"],
    issue := none, issue_description := some "escape", code_snippet := none,
    benefits := none, priority := none }

/-- C3 counterexample: a successful `_generate_improvements` call can
return changes whose target does not resolve inside the Snapshot.  The
prompt-shaped object keeps its un-rewritten `file` key untouched, and
the `..`-laden `file_path` is rewritten to a path that normalizes to
the live `core/agi_core.py`, outside the clone directory. -/
theorem synthesized_path_escapes_snapshot :
    (generate_improvements escCloneDir true [promptShapedImp, escapingImp]).success = true ∧
    (generate_improvements escCloneDir true [promptShapedImp, escapingImp]).improvements =
      [promptShapedImp,
        { escapingImp with
            file_path := some (escCloneDir ++ ["..", "..", "core", "agi_core.py"]) }] ∧
    pathNorm (escCloneDir ++ ["..", "..", "core", "agi_core.py"]) =
      ["core", "agi_core.py"] ∧
    ¬ resolvesStrictlyInside escCloneDir
        (escCloneDir ++ ["..", "..", "core", "agi_core.py"]) := by
  refine ⟨rfl, rfl, by decide, by decide⟩

/-- C3 amended: only an improvement carrying the `file_path` key is
rewritten, to the join of the clone directory and the path stripped of
leading slashes; whenever that stripped path is nonempty and free of
empty, `.` and `..` segments (and the clone directory is itself a
normalized path), the rewritten target resolves strictly inside the
Snapshot directory.  Improvements without the key are returned
unchanged, and `..` segments can escape the Snapshot. -/
theorem rewritten_path_inside_snapshot (cloneDir : Path) (imp : RawImprovement)
    (p : Path) (hcd : cloneDir.all cleanSeg = true)
    (hfp : imp.file_path = some p)
    (hclean : (p.dropWhile (fun s => s = "")).all cleanSeg = true)
    (hne : p.dropWhile (fun s => s = "") ≠ []) :
    (rewriteImprovement cloneDir imp).file_path =
      some (cloneDir ++ p.dropWhile (fun s => s = "")) ∧
    resolvesStrictlyInside cloneDir (cloneDir ++ p.dropWhile (fun s => s = "")) := by
  constructor
  · rw [rewriteImprovement, hfp]
  · have hn : pathNorm (cloneDir ++ p.dropWhile (fun s => s = "")) =
        cloneDir ++ p.dropWhile (fun s => s = "") := by
      rw [pathNorm, List.foldl_append, pathNorm_append_clean _ _ hclean]
      rw [show List.foldl pathNormStep [] cloneDir = cloneDir from
        pathNorm_of_clean cloneDir hcd]
    rw [resolvesStrictlyInside, pathNorm_of_clean cloneDir hcd, hn]
    refine ⟨⟨_, rfl⟩, ?_⟩
    intro he
    have hlen := congrArg List.length he
    rw [List.length_append] at hlen
    have : (p.dropWhile (fun s => s = "")).length = 0 := by omega
    exact hne (List.length_eq_zero.mp this)

/-- A well-formed improvement whose `file_path` is present and clean. -/
def cleanImp : RawImprovement :=
  { file := none, file_path := some ["", "core", "agi_core.py"], issue := none,
    issue_description := some "tidy", code_snippet := none, benefits := none,
    priority := none }

/-- C3 amended witness: a clean `file_path` is rewritten strictly
inside the clone directory. -/
theorem rewritten_path_inside_snapshot_witness :
    (rewriteImprovement escCloneDir cleanImp).file_path =
      some (escCloneDir ++ ["core", "agi_core.py"]) ∧
    resolvesStrictlyInside escCloneDir (escCloneDir ++ ["core", "agi_core.py"]) := by
  have h := rewritten_path_inside_snapshot escCloneDir cleanImp
    ["", "core", "agi_core.py"] (by decide) rfl (by decide) (by decide)
  exact h

/-!
C4.  Rollback of a change that fails verification.
-/

theorem bak_string_ne (s : String) : s ++ ".bak" ≠ s := by
  intro h
  have hlen := congrArg String.length h
  rw [String.length_append] at hlen
  have : (".bak" : String).length = 4 := rfl
  omega

theorem bakPath_ne (p : Path) : bakPath p ≠ p := by
  intro h
  have h1 : p.getLast? = some ((p.getLast?.getD "") ++ ".bak") := by
    conv_lhs => rw [← h]
    exact List.getLast?_concat _
  cases hp : p.getLast? with
  | none => rw [hp] at h1; cases h1
  | some s =>
    rw [hp] at h1
    simp only [Option.getD_some] at h1
    exact bak_string_ne s (Option.some_injective _ h1).symm

/-- C4: (first part) when the Verifier rejects an applied improvement,
`_apply_improvement` reverts the file from its `.bak` backup — the
content at the target path after the call equals the content before
the candidate was written — and reports failure; (second part) the
apply loop of the run collects only improvements whose result
succeeded; (third part) the report's applied-changes details are built
from exactly that collected list, so a failed improvement never
appears among them. -/
theorem failed_verification_rolls_back :
    (∀ (fs : FS) (imp : RawImprovement) (o : ImpOracle) (p : Path) (orig : String),
      imp.file_path = some p →
      imp.issue_description.isSome = true →
      fsRead fs p = some orig →
      o.genOk = true →
      o.testOk = false →
      (apply_one_improvement fs imp o).1.success = false ∧
      fsRead (apply_one_improvement fs imp o).2 p = some orig) ∧
    (∀ (fs : FS) (imps : List (RawImprovement × ImpOracle)),
      ∀ y ∈ (applyLoop fs imps).1, y.2.success = true) ∧
    (∀ (cloneDir : Path) (applied : List (RawImprovement × AIResult)) (overall : ℚ),
      (prepare_evolution_report cloneDir applied overall).details =
        applied.filterMap (fun y =>
          y.1.file_path.map (fun q =>
            { file_path := os_relpath q cloneDir,
              issue_description := y.1.issue_description.getD "" }))) := by
  refine ⟨?_, ?_, fun _ _ _ => rfl⟩
  · intro fs imp o p orig hfp hdesc hread hgen htest
    obtain ⟨d, hd⟩ := Option.isSome_iff_exists.mp hdesc
    rw [apply_one_improvement, hfp, hd]
    dsimp only
    rw [hread, hgen, htest]
    simp only [Bool.not_true, Bool.false_eq_true, if_false]
    have hb : fsRead (fsWrite (fsWrite fs (bakPath p) orig) p o.candidate) (bakPath p) =
        some orig := by
      rw [fsRead_fsWrite_ne _ _ _ _ (bakPath_ne p), fsRead_fsWrite_self]
    rw [hb]
    exact ⟨rfl, fsRead_fsWrite_self _ _ _⟩
  · intro fs imps
    induction imps generalizing fs with
    | nil => intro y hy; cases hy
    | cons x rest ih =>
      intro y hy
      rw [applyLoop] at hy
      by_cases hs : (apply_one_improvement fs x.1 x.2).1.success
      · rw [if_pos hs] at hy
        rcases List.mem_cons.mp hy with hy | hy
        · rw [hy]; exact hs
        · exact ih _ y hy
      · rw [if_neg hs] at hy
        exact ih _ y hy

def c4FS : FS :=
  { files := [(["evolution", "clone-t", "util.py"], "orig code")],
    dirs := [["evolution"], ["evolution", "clone-t"]] }

def c4Imp : RawImprovement :=
  { file := none, file_path := some ["evolution", "clone-t", "util.py"],
    issue := none, issue_description := some "slow loop", code_snippet := none,
    benefits := none, priority := none }

def c4Oracle : ImpOracle := { genOk := true, candidate := "bad code", testOk := false }

/-- C4 witness: at a concrete improvement whose verification fails,
the file content is restored and the result is a failure. -/
theorem failed_verification_rolls_back_witness :
    (apply_one_improvement c4FS c4Imp c4Oracle).1.success = false ∧
    fsRead (apply_one_improvement c4FS c4Imp c4Oracle).2
      ["evolution", "clone-t", "util.py"] = some "orig code" :=
  failed_verification_rolls_back.1 c4FS c4Imp c4Oracle
    ["evolution", "clone-t", "util.py"] "orig code" rfl rfl rfl rfl rfl

/-!
C2.  Finish bookkeeping at the terminal dispositions.
-/

theorem apply_main_success_state (s : EvoState) (now : Nat)
    (bump : String → String) (report : Report) :
    ((apply_evolution_to_main_codebase s now bump report).1.success = true →
      (apply_evolution_to_main_codebase s now bump report).2.is_evolving = false ∧
      (apply_evolution_to_main_codebase s now bump report).2.last_evolution_time = some now ∧
      (apply_evolution_to_main_codebase s now bump report).2.evolution_history =
        s.evolution_history ++
          [{ timestamp := now,
             applied_files :=
               (apply_evolution_to_main_codebase s now bump report).1.applied_files }]) ∧
    ((apply_evolution_to_main_codebase s now bump report).1.success = false →
      (apply_evolution_to_main_codebase s now bump report).2 = s) := by
  rw [apply_evolution_to_main_codebase]
  cases hc : (match report.details with
    | [] => none
    | d :: _ => findCloneDir s.fs d.file_path) with
  | none =>
    refine ⟨?_, ?_⟩ <;> intro h <;> simp_all
  | some cd =>
    refine ⟨?_, ?_⟩ <;> intro h
    · exact ⟨rfl, rfl, rfl⟩
    · simp at h

/-- C2 counterexample: a run that reaches the awaiting-approval
hand-off clears `is_evolving` and persists the report, but records no
`last_evolution_time` and appends nothing to the evolution history —
the finish bookkeeping simply does not run on that disposition. -/
def c2State : EvoState :=
  { is_evolving := true, last_evolution_time := none, evolution_history := [],
    current_clone_dir := some ["evolution", "clone-20250101-000000"],
    fs := { files := [(["evolution", "clone-20250101-000000", "main.py"], "print(1)\n")],
            dirs := [["evolution"], ["evolution", "clone-20250101-000000"]] },
    short_term := [], long_term := [], reports := [], auto_approve := false }

def c2Imp : RawImprovement :=
  { file := none, file_path := some ["main.py"], issue := none,
    issue_description := some "speed up main", code_snippet := none,
    benefits := none, priority := none }

def c2Input : RunInput :=
  { timestamp := "20250101-000000", now := 1000, analysisOk := true,
    parseOk := true,
    raw := [(c2Imp, { genOk := true, candidate := "print(2)\n", testOk := true })],
    benchmarkOk := true, overall := 1, bump := id }

theorem awaiting_handoff_skips_bookkeeping :
    (run_evolution_process c2State c2Input).is_evolving = false ∧
    (run_evolution_process c2State c2Input).last_evolution_time = none ∧
    (run_evolution_process c2State c2Input).evolution_history = [] ∧
    (run_evolution_process c2State c2Input).reports.length = 1 :=
  ⟨rfl, rfl, rfl, rfl⟩

/-- C2 amended: every disposition of `_run_evolution_process` clears
`is_evolving`.  On the failed and applied dispositions the finish
bookkeeping records `last_evolution_time`; the evolution history gains
exactly one entry on the applied disposition (added by the promotion
step, not by `_finish_evolution`) and is unchanged on the failed one.
The awaiting-approval hand-off bypasses the finish bookkeeping
entirely: it leaves both `last_evolution_time` and the evolution
history unchanged. -/
theorem run_terminal_bookkeeping (s : EvoState) (inp : RunInput) :
    (run_evolution_process s inp).is_evolving = false ∧
    (match runOutcome s inp with
     | .awaiting =>
         (run_evolution_process s inp).last_evolution_time = s.last_evolution_time ∧
         (run_evolution_process s inp).evolution_history = s.evolution_history
     | .applied true =>
         (run_evolution_process s inp).last_evolution_time = some inp.now ∧
         (run_evolution_process s inp).evolution_history.length =
           s.evolution_history.length + 1
     | _ =>
         (run_evolution_process s inp).last_evolution_time = some inp.now ∧
         (run_evolution_process s inp).evolution_history = s.evolution_history) := by
  rw [run_evolution_process, runOutcome]
  cases ha : inp.analysisOk with
  | false => exact ⟨rfl, ⟨rfl, rfl⟩⟩
  | true =>
  cases hp : inp.parseOk with
  | false => exact ⟨rfl, ⟨rfl, rfl⟩⟩
  | true =>
  simp only [Bool.not_true, Bool.false_eq_true, if_false]
  cases he : (rewrittenImps s inp).isEmpty with
  | true => exact ⟨rfl, ⟨rfl, rfl⟩⟩
  | false =>
  simp only [Bool.false_eq_true, if_false]
  cases hl : (applyLoop s.fs (rewrittenImps s inp)).1.isEmpty with
  | true => exact ⟨rfl, ⟨rfl, rfl⟩⟩
  | false =>
  simp only [Bool.false_eq_true, if_false]
  cases hb : inp.benchmarkOk with
  | false => exact ⟨rfl, ⟨rfl, rfl⟩⟩
  | true =>
  simp only [Bool.not_true, Bool.false_eq_true, if_false]
  cases hauto : s.auto_approve with
  | false => exact ⟨rfl, ⟨rfl, rfl⟩⟩
  | true =>
  simp only [Bool.not_true, Bool.false_eq_true, if_false]
  have hch := apply_main_success_state (runPromoteState s inp) inp.now inp.bump
    (runReport s inp)
  rcases Bool.eq_false_or_eq_true ((apply_evolution_to_main_codebase
      (runPromoteState s inp) inp.now inp.bump (runReport s inp)).1.success) with
    hs | hs
  · rw [hs]
    obtain ⟨_, _, hhist⟩ := hch.1 hs
    refine ⟨rfl, rfl, ?_⟩
    simp only [runPromoteState] at hhist ⊢
    simp [finish_evolution, hhist]
  · rw [hs]
    have heq := hch.2 hs
    refine ⟨rfl, rfl, ?_⟩
    simp only [runPromoteState] at heq ⊢
    simp [finish_evolution, heq]

/-!
C5.  Promotion by `approve_evolution`.
-/

theorem promoteLoop_fsRead_preserved (cd : Path) (rels : List Path) (fs : FS)
    (q : Path) (h : ∀ r ∈ rels, r ≠ q ∧ bakPath r ≠ q) :
    fsRead (promoteLoop cd fs rels).1 q = fsRead fs q := by
  induction rels generalizing fs with
  | nil => rfl
  | cons r rs ih =>
    rw [promoteLoop]
    cases hr : fsRead fs (cd ++ r) with
    | none =>
      exact ih fs (fun x hx => h x (List.mem_cons_of_mem r hx))
    | some content =>
      have hq := h r (List.mem_cons_self r rs)
      cases ho : fsRead fs r with
      | some old =>
        rw [ih _ (fun x hx => h x (List.mem_cons_of_mem r hx)),
          fsRead_fsWrite_ne _ _ _ _ (Ne.symm hq.1),
          fsRead_fsWrite_ne _ _ _ _ (Ne.symm hq.2)]
      | none =>
        rw [ih _ (fun x hx => h x (List.mem_cons_of_mem r hx)),
          fsRead_fsWrite_ne _ _ _ _ (Ne.symm hq.1)]

theorem promoteLoop_spec (cd : Path) (rels : List Path) (fs : FS) (rel : Path)
    (content : String)
    (hmem : rel ∈ rels)
    (hsrc : fsRead fs (cd ++ rel) = some content)
    (hnodup : rels.Nodup)
    (hbak : ∀ r1 ∈ rels, ∀ r2 ∈ rels, r1 ≠ bakPath r2)
    (hbakinj : ∀ r1 ∈ rels, ∀ r2 ∈ rels, bakPath r1 = bakPath r2 → r1 = r2)
    (hsrcfresh : ∀ r1 ∈ rels, ∀ r2 ∈ rels,
      cd ++ r1 ≠ r2 ∧ cd ++ r1 ≠ bakPath r2) :
    fsRead (promoteLoop cd fs rels).1 rel = some content ∧
    (∀ old, fsRead fs rel = some old →
      fsRead (promoteLoop cd fs rels).1 (bakPath rel) = some old) ∧
    rel ∈ (promoteLoop cd fs rels).2 := by
  induction rels generalizing fs with
  | nil => cases hmem
  | cons r rs ih =>
    have hmemr : r ∈ r :: rs := List.mem_cons_self r rs
    rcases List.mem_cons.mp hmem with hrel | hrel
    · subst hrel
      rw [promoteLoop, hsrc]
      have hnotin : rel ∉ rs := (List.nodup_cons.mp hnodup).1
      have hframe1 : ∀ x ∈ rs, x ≠ rel ∧ bakPath x ≠ rel := by
        intro x hx
        refine ⟨fun he => hnotin (he ▸ hx), ?_⟩
        intro he
        exact hbak rel hmemr x (List.mem_cons_of_mem _ hx) he.symm
      have hframe2 : ∀ x ∈ rs, x ≠ bakPath rel ∧ bakPath x ≠ bakPath rel := by
        intro x hx
        refine ⟨hbak x (List.mem_cons_of_mem _ hx) rel hmemr, ?_⟩
        intro he
        exact hnotin
          (hbakinj x (List.mem_cons_of_mem _ hx) rel hmemr he ▸ hx)
      have hbakne : bakPath rel ≠ rel := by
        intro he
        exact hbak rel hmemr rel hmemr he.symm
      cases ho : fsRead fs rel with
      | some old =>
        refine ⟨?_, ?_, List.mem_cons_self rel _⟩
        · rw [promoteLoop_fsRead_preserved cd rs _ rel hframe1,
            fsRead_fsWrite_self]
        · intro old2 ho2
          cases ho2
          rw [promoteLoop_fsRead_preserved cd rs _ (bakPath rel) hframe2,
            fsRead_fsWrite_ne _ _ _ _ hbakne, fsRead_fsWrite_self]
      | none =>
        refine ⟨?_, ?_, List.mem_cons_self rel _⟩
        · rw [promoteLoop_fsRead_preserved cd rs _ rel hframe1,
            fsRead_fsWrite_self]
        · intro old2 ho2
          cases ho2
    · have hsub : ∀ (P : Path → Path → Prop),
          (∀ r1 ∈ r :: rs, ∀ r2 ∈ r :: rs, P r1 r2) →
          (∀ r1 ∈ rs, ∀ r2 ∈ rs, P r1 r2) := by
        intro P hP r1 h1 r2 h2
        exact hP r1 (List.mem_cons_of_mem r h1) r2 (List.mem_cons_of_mem r h2)
      have hnotin : r ∉ rs := (List.nodup_cons.mp hnodup).1
      have hner : rel ≠ r := fun he => hnotin (he ▸ hrel)
      rw [promoteLoop]
      cases hr : fsRead fs (cd ++ r) with
      | none =>
        exact ih fs hrel hsrc (List.nodup_cons.mp hnodup).2
          (hsub _ hbak) (hsub _ hbakinj) (hsub _ hsrcfresh)
      | some c0 =>
        have hfresh := hsrcfresh rel (List.mem_cons_of_mem r hrel) r hmemr
        have hrelp : r ≠ rel := Ne.symm hner
        have hbrel : bakPath r ≠ rel :=
          fun he => hbak rel (List.mem_cons_of_mem r hrel) r hmemr he.symm
        cases ho : fsRead fs r with
        | some old0 =>
          have hsrc2 : fsRead (fsWrite (fsWrite fs (bakPath r) old0) r c0)
              (cd ++ rel) = some content := by
            rw [fsRead_fsWrite_ne _ _ _ _ hfresh.1,
              fsRead_fsWrite_ne _ _ _ _ hfresh.2, hsrc]
          have hrel2 : fsRead (fsWrite (fsWrite fs (bakPath r) old0) r c0) rel =
              fsRead fs rel := by
            rw [fsRead_fsWrite_ne _ _ _ _ (Ne.symm hrelp),
              fsRead_fsWrite_ne _ _ _ _ (Ne.symm hbrel)]
          obtain ⟨ha, hbk, hm⟩ := ih _ hrel hsrc2 (List.nodup_cons.mp hnodup).2
            (hsub _ hbak) (hsub _ hbakinj) (hsub _ hsrcfresh)
          refine ⟨ha, ?_, List.mem_cons_of_mem r hm⟩
          intro old hold
          exact hbk old (hrel2 ▸ hold)
        | none =>
          have hsrc2 : fsRead (fsWrite fs r c0) (cd ++ rel) = some content := by
            rw [fsRead_fsWrite_ne _ _ _ _ hfresh.1, hsrc]
          have hrel2 : fsRead (fsWrite fs r c0) rel = fsRead fs rel := by
            rw [fsRead_fsWrite_ne _ _ _ _ (Ne.symm hrelp)]
          obtain ⟨ha, hbk, hm⟩ := ih _ hrel hsrc2 (List.nodup_cons.mp hnodup).2
            (hsub _ hbak) (hsub _ hbakinj) (hsub _ hsrcfresh)
          refine ⟨ha, ?_, List.mem_cons_of_mem r hm⟩
          intro old hold
          exact hbk old (hrel2 ▸ hold)

theorem update_version_fsRead_ne (bump : String → String) (fs : FS) (q : Path)
    (h : q ≠ agiCorePath) :
    fsRead (update_version_number bump fs) q = fsRead fs q := by
  rw [update_version_number]
  cases hr : fsRead fs agiCorePath with
  | none => rfl
  | some c => exact fsRead_fsWrite_ne _ _ _ _ h

/-- C5 amended: after `approve_evolution` succeeds, the files are
copied from the first `clone-` directory of the evolution directory
whose listing contains the first detail path (which is the approved
run's Snapshot only when that clone is the unique match).  Every
detail path that exists in that located clone, is distinct from
`core/agi_core.py` and aliases no other detail's target or backup,
ends with live content equal to the located clone's content; and a
`.bak` sibling holding the pre-promotion live content exists whenever
the live file existed before promotion (a missing live file gets no
backup). -/
theorem approve_copies_located_clone (s : EvoState) (now : Nat)
    (bump : String → String) (ts : String) (report : Report) (cd : Path)
    (rel : Path) (content : String)
    (hrep : s.reports.lookup ts = some report)
    (hcd : (match report.details with
            | [] => none
            | d :: _ => findCloneDir s.fs d.file_path) = some cd)
    (hmem : rel ∈ detailPaths report)
    (hsrc : fsRead s.fs (cd ++ rel) = some content)
    (hnodup : (detailPaths report).Nodup)
    (hbak : ∀ r1 ∈ detailPaths report, ∀ r2 ∈ detailPaths report,
      r1 ≠ bakPath r2)
    (hbakinj : ∀ r1 ∈ detailPaths report, ∀ r2 ∈ detailPaths report,
      bakPath r1 = bakPath r2 → r1 = r2)
    (hsrcfresh : ∀ r1 ∈ detailPaths report, ∀ r2 ∈ detailPaths report,
      cd ++ r1 ≠ r2 ∧ cd ++ r1 ≠ bakPath r2)
    (hagi1 : rel ≠ agiCorePath) (hagi2 : bakPath rel ≠ agiCorePath) :
    (approve_evolution s now bump ts).1.success = true ∧
    fsRead (approve_evolution s now bump ts).2.fs rel = some content ∧
    (∀ old, fsRead s.fs rel = some old →
      fsRead (approve_evolution s now bump ts).2.fs (bakPath rel) = some old) ∧
    rel ∈ (approve_evolution s now bump ts).1.applied_files := by
  obtain ⟨hl, hbk, hm⟩ := promoteLoop_spec cd (detailPaths report) s.fs rel content
    hmem hsrc hnodup hbak hbakinj hsrcfresh
  rw [approve_evolution, hrep]
  simp only [apply_evolution_to_main_codebase, hcd]
  refine ⟨trivial, ?_, ?_, hm⟩
  · show fsRead (update_version_number bump
        (promoteLoop cd s.fs (detailPaths report)).1) rel = some content
    rw [update_version_fsRead_ne _ _ _ hagi1, hl]
  · intro old hold
    show fsRead (update_version_number bump
        (promoteLoop cd s.fs (detailPaths report)).1) (bakPath rel) = some old
    rw [update_version_fsRead_ne _ _ _ hagi2]
    exact hbk old hold

/-- C5 counterexample state: two clones both hold `a.py`; the report
for the run with timestamp `t2` is pending, and the live tree holds no
`a.py`. -/
def c5State : EvoState :=
  { is_evolving := false, last_evolution_time := none, evolution_history := [],
    current_clone_dir := none,
    fs := { files := [(["evolution", "clone-t1", "a.py"], "old snapshot"),
                      (["evolution", "clone-t2", "a.py"], "new snapshot")],
            dirs := [["evolution"], ["evolution", "clone-t1"],
                     ["evolution", "clone-t2"]] },
    short_term := [], long_term := [],
    reports := [("t2",
      { details := [{ file_path := ["a.py"], issue_description := "speed" }],
        overall_improvement := 1, recommendation := "approve" })],
    auto_approve := false }

/-- C5 counterexample: `approve_evolution` for the run `t2` succeeds,
but the clone-directory search picks the first matching clone
(`clone-t1`), so the live file ends with the other run's content, not
the approved run's Snapshot content; and because the live file did not
exist before promotion, no `.bak` sibling exists either. -/
theorem approve_wrong_clone_no_bak :
    (approve_evolution c5State 5 id "t2").1.success = true ∧
    fsRead (approve_evolution c5State 5 id "t2").2.fs ["a.py"] =
      some "old snapshot" ∧
    fsRead c5State.fs (["evolution", "clone-t2"] ++ ["a.py"]) =
      some "new snapshot" ∧
    fsRead (approve_evolution c5State 5 id "t2").2.fs (bakPath ["a.py"]) = none := by
  refine ⟨rfl, rfl, rfl, rfl⟩

/-- C5 amended witness state: one clone, one detail, live file
present. -/
def c5wReport : Report :=
  { details := [{ file_path := ["b.py"], issue_description := "tidy" }],
    overall_improvement := 1, recommendation := "approve" }

def c5wState : EvoState :=
  { is_evolving := false, last_evolution_time := none, evolution_history := [],
    current_clone_dir := none,
    fs := { files := [(["evolution", "clone-t3", "b.py"], "improved"),
                      (["b.py"], "livecode")],
            dirs := [["evolution"], ["evolution", "clone-t3"]] },
    short_term := [], long_term := [],
    reports := [("t3", c5wReport)], auto_approve := false }

/-- C5 amended witness: at a concrete approval the live file receives
the located clone content and its `.bak` holds the pre-promotion live
content. -/
theorem approve_copies_located_clone_witness :
    (approve_evolution c5wState 7 id "t3").1.success = true ∧
    fsRead (approve_evolution c5wState 7 id "t3").2.fs ["b.py"] =
      some "improved" ∧
    fsRead (approve_evolution c5wState 7 id "t3").2.fs (bakPath ["b.py"]) =
      some "livecode" ∧
    ["b.py"] ∈ (approve_evolution c5wState 7 id "t3").1.applied_files := by
  have h := approve_copies_located_clone c5wState 7 id "t3" c5wReport
    ["evolution", "clone-t3"] ["b.py"] "improved" rfl rfl (by decide) rfl
    (by decide) (by decide) (by decide) (by decide) (by decide) (by decide)
  exact ⟨h.1, h.2.1, h.2.2.1 "livecode" rfl, h.2.2.2⟩

end Hohenheim
